import Mathlib

/-!
Verification development for the Book-Finder catalog service.

This file gives a shallow embedding, in Lean 4, of the embedding-construction
and similarity-ranking core of the repository:

* `app/services/audio_service.py` — `AudioService.create_embedding`
  (feature concatenation, scalar normalization, pad/truncate, L2 normalization),
  modelled over `ℝ` (numpy float64 idealized as real numbers);
* `app/services/embedding_service.py` — `EmbeddingService.validate_embedding`,
  modelled over a float type with explicit NaN/Infinity values;
* `app/services/mood_service.py` — `MoodService.infer_mood` and its rule table;
* `app/services/similarity_service.py` — `SimilarityService.find_similar_books`:
  the aggregation pipeline built by the code (vector-search stage truncating to
  `k`, followed by the optional exclude-id / genre `$match` stage, followed by
  the projection).  The external Azure DocumentDB `cosmosSearch` stage is not
  code of this repository; following the specification (§4.3), which defines
  the brute-force contract the native index must satisfy, it is modelled as the
  exact top-`k` of the stored embedded documents ordered by descending score
  and ascending id, with the score function kept as an explicit parameter
  (the repository never computes scores itself; it reads the store's
  `searchScore` metadata);
* `app/services/book_service.py` — `BookService.update_book`, with the
  embedding provider modelled as a fallible function (`Option` result models a
  raising call, which the code catches and ignores);
* `app/api/v1/routes/search.py` — the `POST /search/similar` handler, with
  Python attribute lookup on `SimilarityService` modelled explicitly so that a
  call to a method the class does not define raises `AttributeError`.

Machine integers do not occur: the Python sources use unbounded ints and
floats; floats are modelled as `ℝ` (audio pipeline, where only norm algebra
matters), as `ℚ` (similarity scores, where only ordering matters), or as a
type with explicit non-finite values (validation, where finiteness matters).
-/

/-! ## AudioService (`app/services/audio_service.py`) -/

/-- The feature dictionary consumed by `AudioService.create_embedding`
(`audio_service.py:79`): three sub-vectors (`mfccs`, `chroma`,
`spectral_contrast`) and three scalars (`spectral_centroid`, `zcr`, `tempo`).
Entries are numpy floats, modelled as reals. -/
structure FeatureBundle where
  mfccs : List ℝ
  chroma : List ℝ
  spectral_contrast : List ℝ
  spectral_centroid : ℝ
  zcr : ℝ
  tempo : ℝ

/-- `settings.EMBEDDING_DIM` (`app/config.py:22`): the configured default is
`1536` (text-embedding-3-small dimensions).  `AudioService.EMBEDDING_DIM`
(`audio_service.py:16`) reads this same setting; the `# 128 dimensions`
comment there is stale. -/
def EMBEDDING_DIM : ℕ := 1536

/-- The concatenation step of `create_embedding` (`audio_service.py:97-117`):
mfccs, chroma, spectral contrast, then the three scalars normalized by the
fixed divisors 5000 (spectral centroid) and 200 (tempo); zcr is used as-is. -/
noncomputable def concatComponents (f : FeatureBundle) : List ℝ :=
  f.mfccs ++ f.chroma ++ f.spectral_contrast ++
    [f.spectral_centroid / 5000, f.zcr, f.tempo / 200]

/-- The pad-or-truncate step (`audio_service.py:119-125`): right-pad with
zeros below `dim`, truncate above `dim`, unchanged at `dim`. -/
noncomputable def padOrTruncate (dim : ℕ) (v : List ℝ) : List ℝ :=
  if v.length < dim then v ++ List.replicate (dim - v.length) 0
  else if v.length > dim then v.take dim
  else v

/-- Sum of squares of a list of reals; `np.linalg.norm e` is `√(sumSq e)`. -/
noncomputable def sumSq (l : List ℝ) : ℝ :=
  (l.map fun x => x * x).sum

/-- Euclidean norm, `np.linalg.norm` (`audio_service.py:129`). -/
noncomputable def euclNorm (l : List ℝ) : ℝ :=
  Real.sqrt (sumSq l)

/-- `AudioService.create_embedding` (`audio_service.py:79-135`): concatenate,
pad/truncate to `EMBEDDING_DIM`, then divide by the Euclidean norm when it is
positive and by `norm + 1e-8` otherwise (the code's zero-norm branch
`embedding / (norm + 1e-8)` appears verbatim here). -/
noncomputable def create_embedding (f : FeatureBundle) : List ℝ :=
  let embedding := padOrTruncate EMBEDDING_DIM (concatComponents f)
  let norm := euclNorm embedding
  if norm > 0 then embedding.map fun x => x / norm
  else embedding.map fun x => x / (norm + 1 / 100000000)

/-- A feature bundle of empty sub-vectors and zero scalars; its concatenated
vector is all zeros, exercising the zero-norm branch. -/
noncomputable def zeroBundle : FeatureBundle :=
  { mfccs := [], chroma := [], spectral_contrast := [],
    spectral_centroid := 0, zcr := 0, tempo := 0 }

/-! ## EmbeddingService.validate_embedding (`app/services/embedding_service.py`) -/

/-- A numpy float as seen by `np.isfinite`: either a finite value (modelled as
a rational) or one of the non-finite values NaN, +inf, -inf. -/
inductive NpFloat where
  | val (q : ℚ)
  | nan
  | inf
  | ninf
deriving DecidableEq

/-- `np.isfinite` on a single component. -/
def NpFloat.isFinite : NpFloat → Bool
  | NpFloat.val _ => true
  | _ => false

/-- `EmbeddingService.validate_embedding` (`embedding_service.py:107-129`):
returns `False` on a dimension mismatch, `False` when any component is
non-finite, `True` otherwise.  `embedding_dim` is
`settings.EMBEDDING_DIM` (`embedding_service.py:21`).  It is a pure
predicate: it raises nothing and does not modify the vector. -/
def validate_embedding (embedding_dim : ℕ) (embedding : List NpFloat) : Bool :=
  if embedding.length ≠ embedding_dim then false
  else if ¬ (embedding.all NpFloat.isFinite) then false
  else true

/-- The custom exception classes the repository defines
(`app/core/exceptions.py:13-26`).  There is no `DimensionMismatchError`
anywhere in the codebase. -/
def exception_class_names : List String :=
  ["TrackNotFoundException", "AudioProcessingException", "InvalidFileException"]

/-! ## MoodService (`app/services/mood_service.py`) -/

/-- `MoodService.MOOD_MAPPINGS` (`mood_service.py:9-34`), a dict literal whose
iteration order is its definition order (Python dicts preserve insertion
order). -/
def MOOD_MAPPINGS : List (String × List String) :=
  [("focus",
    ["ambient", "instrumental", "minimal", "lofi", "concentration",
     "study", "work", "deep", "calm", "meditation", "deepwork",
     "coding", "productivity"]),
   ("energetic",
    ["upbeat", "dance", "electronic", "edm", "workout", "party",
     "energetic", "fast", "pump", "high-energy", "rock", "metal",
     "trap", "drum-and-bass", "dnb", "techno", "house"]),
   ("chill",
    ["chill", "relaxing", "downtempo", "smooth", "jazz", "acoustic",
     "mellow", "laid-back", "easy", "soft", "lounge", "chillout",
     "lo-fi", "beats"]),
   ("melancholic",
    ["sad", "melancholic", "emotional", "dark", "moody", "introspective",
     "somber", "melancholy", "blue", "nostalgic", "reflective",
     "depressing", "gloomy"]),
   ("happy",
    ["happy", "uplifting", "cheerful", "positive", "joyful", "bright",
     "feel-good", "sunshine", "optimistic", "fun", "poppy", "pop"])]

/-- ASCII lowercasing of one character, as Python `str.lower` acts on the
ASCII tags this service receives. -/
def lowerChar (c : Char) : Char :=
  if c.isUpper then Char.ofNat (c.toNat + 32) else c

/-- Python `str.lower` on a tag (character-wise lowercasing). -/
def pyLower (s : String) : String :=
  String.mk (s.data.map lowerChar)

/-- Python `str.strip()` on a tag: drop leading and trailing whitespace. -/
def pyStrip (s : String) : String :=
  String.mk
    (((s.data.dropWhile Char.isWhitespace).reverse.dropWhile
        Char.isWhitespace).reverse)

/-- Tag normalization `tag.lower().strip()` (`mood_service.py:50`). -/
def normalizeTag (t : String) : String :=
  pyStrip (pyLower t)

/-- The per-mood score `sum(1 for keyword in keywords if keyword in
normalized_tags)` (`mood_service.py:55`). -/
def moodScore (normalizedTags keywords : List String) : ℕ :=
  (keywords.filter fun k => normalizedTags.contains k).length

/-- One iteration of the `mood_scores` loop (`mood_service.py:54-57`): a mood
enters the dict exactly when its score is positive. -/
def moodEntry (normalizedTags : List String) (p : String × List String) :
    Option (String × ℕ) :=
  let s := moodScore normalizedTags p.2
  if s > 0 then some (p.1, s) else none

/-- The `mood_scores` dict (`mood_service.py:53-57`): moods with positive
score, in rule-table order (dict insertion order). -/
def moodScoresList (normalizedTags : List String) : List (String × ℕ) :=
  MOOD_MAPPINGS.filterMap (moodEntry normalizedTags)

/-- One step of Python's `max(..., key=...)`: the running maximum is replaced
only on a strictly greater key, so the first maximum encountered wins. -/
def pyMaxStep (best p : String × ℕ) : String × ℕ :=
  if p.2 > best.2 then p else best

/-- `MoodService.infer_mood` (`mood_service.py:36-63`): `None` on an empty tag
list; otherwise normalize the tags, score each mood, keep the positive scores,
and return `max(mood_scores, key=mood_scores.get)` — the first mood attaining
the maximal score — or `None` when every score is zero. -/
def infer_mood (tags : List String) : Option String :=
  if tags.isEmpty then none
  else
    let normalizedTags := tags.map normalizeTag
    match moodScoresList normalizedTags with
    | [] => none
    | h :: t => some (t.foldl pyMaxStep h).1

/-- The maximal keyword-overlap count over the whole rule table. -/
def maxMoodScore (tags : List String) : ℕ :=
  (MOOD_MAPPINGS.map fun p => moodScore (tags.map normalizeTag) p.2).foldr max 0

/-! ## Generic top-k ranking order

The store's vector search and the spec's merge step both order by
(score descending, id ascending).  The order is developed generically over a
score key `ks` and an id key `ki` so that it can be instantiated both at
stored documents and at projected results. -/

section RankOrder

variable {α : Type} (ks : α → ℚ) (ki : α → ℕ)

/-- `a` ranks no worse than `b`: strictly higher score, or equal score and an
id no larger (descending score, ascending id). -/
def rankRel (a b : α) : Prop :=
  ks b < ks a ∨ (ks a = ks b ∧ ki a ≤ ki b)

instance rankRel.decidableRel : DecidableRel (rankRel ks ki) := fun a b => by
  unfold rankRel
  infer_instance

instance rankRel.isTotal : IsTotal α (rankRel ks ki) where
  total a b := by
    unfold rankRel
    rcases lt_trichotomy (ks a) (ks b) with h | h | h
    · exact Or.inr (Or.inl h)
    · rcases le_total (ki a) (ki b) with h2 | h2
      · exact Or.inl (Or.inr ⟨h, h2⟩)
      · exact Or.inr (Or.inr ⟨h.symm, h2⟩)
    · exact Or.inl (Or.inl h)

instance rankRel.isTrans : IsTrans α (rankRel ks ki) where
  trans a b c hab hbc := by
    unfold rankRel at *
    rcases hab with h1 | ⟨h1, h1i⟩
    · rcases hbc with h2 | ⟨h2, _⟩
      · exact Or.inl (h2.trans h1)
      · exact Or.inl (h2 ▸ h1)
    · rcases hbc with h2 | ⟨h2, h2i⟩
      · exact Or.inl (h2.trans_le h1.symm.le)
      · exact Or.inr ⟨h1.trans h2, h1i.trans h2i⟩

/-- Sort by descending score, ascending id. -/
def sortRank (l : List α) : List α :=
  List.insertionSort (rankRel ks ki) l

/-- Top `k` of a collection under the ranking order. -/
def topK (k : ℕ) (l : List α) : List α :=
  (sortRank ks ki l).take k

/-- The id key is duplicate-free on `l` (every stored document has a unique
`_id`). -/
def idsNodup (l : List α) : Prop :=
  (l.map ki).Nodup

end RankOrder

/-! ## SimilarityService (`app/services/similarity_service.py`) -/

/-- A stored book document as the pipeline sees it: the Mongo `_id` (an
`ObjectId`, modelled as `ℕ`; `str` of distinct ObjectIds preserves order and
distinctness), projected metadata, the optional `genre`, and the optional
`embedding` vector.  The remaining projected fields (`author`,
`publishYear`, `isbn`) are inert payload and are represented by `title` and
`description`. -/
structure Doc where
  id : ℕ
  title : String
  description : String
  genre : Option String
  embedding : Option (List ℚ)
deriving DecidableEq

/-- The store's similarity score of a document, for score function `s`
(the repository reads this as the `searchScore` metadata; `s` stands for the
store's cosine scoring against the fixed query vector). -/
def docScore (s : List ℚ → ℚ) (d : Doc) : ℚ :=
  s (d.embedding.getD [])

/-- One formatted result row (`similarity_service.py:100-111`). -/
structure SimResult where
  book_id : ℕ
  similarity_score : ℚ
  title : String
  description : String
  genre : Option String
deriving DecidableEq

/-- Description truncation for the response (`similarity_service.py:97-98`). -/
def truncateDescription (descr : String) : String :=
  if descr.length > 200 then descr.take 200 ++ "..." else descr

/-- The result-formatting step (`similarity_service.py:94-111` plus the
`$project` stage at lines 76-87). -/
def projectDoc (s : List ℚ → ℚ) (d : Doc) : SimResult :=
  { book_id := d.id
    similarity_score := docScore s d
    title := d.title
    description := truncateDescription d.description
    genre := d.genre }

/-- Documents that participate in the vector search: those having an
`embedding` (the index skips documents without the indexed path, and the spec
§4.3 makes skipping missing-embedding candidates explicit). -/
def withEmbedding (docs : List Doc) : List Doc :=
  docs.filter fun d => d.embedding.isSome

/-- The `$search`/`cosmosSearch` stage (`similarity_service.py:55-66`) with
`k = limit`.  The store is external; per spec §4.3 the native index must
behave as the exact top-`k` by descending score with ascending-id tie-break,
which is how it is modelled (`lSearch` is configured `≥ k` by the code, line
62, matching the spec's breadth requirement). -/
def cosmosSearch (s : List ℚ → ℚ) (docs : List Doc) (k : ℕ) : List Doc :=
  topK (docScore s) Doc.id k (withEmbedding docs)

/-- The filter list built at `similarity_service.py:44-52`: an `_id ≠` filter
when an exclude id is given, and a `genre =` filter when a genre is given.
(The code skips the exclude filter only for an unparseable ObjectId string, a
string which can equal no stored id; ids here are already ObjectIds.) -/
def matchFilters (exclude_book_id : Option ℕ) (genre_filter : Option String) :
    List (Doc → Bool) :=
  (match exclude_book_id with
   | some e => [fun d => d.id != e]
   | none => []) ++
  (match genre_filter with
   | some g => [fun d => d.genre == some g]
   | none => [])

/-- The optional `$match` stage (`similarity_service.py:68-73`): appended only
when the filter list is nonempty, and requiring every filter (`$and`). -/
def applyMatch (fs : List (Doc → Bool)) (l : List Doc) : List Doc :=
  match fs with
  | [] => l
  | _ => l.filter fun d => fs.all fun f => f d

/-- `SimilarityService.find_similar_books` (`similarity_service.py:14-122`):
the aggregation pipeline `$search` (top-`limit`), then the optional `$match`
(exclude-id and genre filters), then the projection/formatting.  Note the
filters run *after* the `k`-truncating search stage, exactly as in the
pipeline the code builds. -/
def find_similar_books (s : List ℚ → ℚ) (docs : List Doc) (limit : ℕ)
    (exclude_book_id : Option ℕ) (genre_filter : Option String) :
    List SimResult :=
  (applyMatch (matchFilters exclude_book_id genre_filter)
      (cosmosSearch s docs limit)).map (projectDoc s)

/-- Eligibility per the spec: has an embedding and passes the exclude-id and
genre filters. -/
def eligibleDoc (exclude_book_id : Option ℕ) (genre_filter : Option String)
    (d : Doc) : Bool :=
  d.embedding.isSome &&
    (matchFilters exclude_book_id genre_filter).all fun f => f d

/-- The spec's merge of partial result lists (§5): order by
(score descending, id ascending) and re-truncate to `k`. -/
def mergeResults (k : ℕ) (rs : List SimResult) : List SimResult :=
  topK SimResult.similarity_score SimResult.book_id k rs

/-- A concrete score function for concrete instances: score a candidate by the
head of its embedding vector. -/
def headScore : List ℚ → ℚ := fun e => e.headD 0

/-- Concrete documents for the counterexamples: `docA`, `docB` lack genre
`"g"`; only `docC` has it, and `docC` has the lowest score under
`headScore`. -/
def docA : Doc :=
  { id := 1, title := "A", description := "a", genre := none,
    embedding := some [9] }

/-- Second concrete document (see `docA`). -/
def docB : Doc :=
  { id := 2, title := "B", description := "b", genre := none,
    embedding := some [8] }

/-- Third concrete document (see `docA`); the only one with genre `"g"`. -/
def docC : Doc :=
  { id := 3, title := "C", description := "c", genre := some "g",
    embedding := some [7] }

/-! ## BookService.update_book (`app/services/book_service.py`) -/

/-- The mutable fields of a stored book that `update_book` touches. -/
structure BookDoc where
  title : String
  description : String
  embedding : Option (List ℚ)
  updatedAt : ℕ
deriving DecidableEq

/-- An update payload: optional new title and/or description
(`update_data`). -/
structure BookUpdate where
  title : Option String
  description : Option String
deriving DecidableEq

/-- `BookService.update_book` (`book_service.py:124-168`), on a found book:
stamp `updatedAt`; when the update touches `title` or `description`, call the
embedding provider on the merged new title/description — a call that can
raise, modelled by an `Option` result — and, per the code's inner
`try/except` (lines 149-155), *ignore* a failure and proceed; finally apply
all update fields and save.  On provider success the new embedding is part of
the same saved update (atomic with the field change); on failure the stale
embedding is kept alongside the new fields. -/
def update_book (embedSvc : String → String → Option (List ℚ)) (now : ℕ)
    (book : BookDoc) (upd : BookUpdate) : BookDoc :=
  let changed := upd.title.isSome || upd.description.isSome
  let newTitle := upd.title.getD book.title
  let newDesc := upd.description.getD book.description
  let newEmbedding :=
    if changed then
      match embedSvc newTitle newDesc with
      | some e => some e
      | none => book.embedding
    else book.embedding
  { title := newTitle
    description := newDesc
    embedding := newEmbedding
    updatedAt := now }

/-- A concrete stored book for the `update_book` counterexample. -/
def staleBook : BookDoc :=
  { title := "old title", description := "old description",
    embedding := some [5], updatedAt := 0 }

/-- A concrete update payload changing only the title. -/
def titleOnlyUpdate : BookUpdate :=
  { title := some "new title", description := none }

/-! ## POST /search/similar (`app/api/v1/routes/search.py`) -/

/-- Python exceptions relevant to the handler's `try/except` structure. -/
inductive PyExc where
  | httpException (status : ℕ)
  | valueError
  | attributeError
  | otherError
deriving DecidableEq

/-- The methods `SimilarityService` actually defines
(`similarity_service.py:14`, `:124`, `:174`). -/
def similarity_service_methods : List String :=
  ["find_similar_books", "find_similar_by_book_id", "get_embedding_stats"]

/-- Python attribute lookup plus call on the `SimilarityService` instance: a
name the class does not define raises `AttributeError`.  `hyp` stands for
whatever the method would return if it existed (the theorems hold for every
`hyp`). -/
def callSimilarityServiceMethod (name : String) (hyp : List SimResult) :
    Except PyExc (List SimResult) :=
  if similarity_service_methods.contains name then Except.ok hyp
  else Except.error PyExc.attributeError

/-- The handler's inputs: the `track_id` query parameter, whether a file was
uploaded, and the result limit. -/
structure SearchRequest where
  track_id : Option String
  has_file : Bool
  limit : ℕ

/-- Python truthiness of an optional string (`if not track_id`): `None` and
the empty string are falsy. -/
def pyTruthyStr : Option String → Bool
  | some t => !t.isEmpty
  | none => false

/-- The body of mode 1 (`search.py:49-64`): look the track up (a missing
track raises `HTTPException(404)` inside the `try`), then call
`similarity_service.find_similar_by_track_id` — a method that does not
exist. -/
def trackModeBody (trackFound : String → Bool) (tid : String)
    (hyp : List SimResult) : Except PyExc (List SimResult) :=
  if !trackFound tid then Except.error (PyExc.httpException 404)
  else callSimilarityServiceMethod "find_similar_by_track_id" hyp

/-- The body of mode 2 (`search.py:73-106`): reject a bad extension with
`HTTPException(415)` (raised inside the `try`), process the audio (librosa
failure modelled as `otherError`), then call
`similarity_service.find_similar_tracks` — a method that does not exist. -/
def fileModeBody (extOk audioOk : Bool) (hyp : List SimResult) :
    Except PyExc (List SimResult) :=
  if !extOk then Except.error (PyExc.httpException 415)
  else if !audioOk then Except.error PyExc.otherError
  else callSimilarityServiceMethod "find_similar_tracks" hyp

/-- The HTTP outcome of the handler. -/
inductive SearchOutcome where
  | ok (results : List SimResult)
  | httpError (status : ℕ)
deriving DecidableEq

/-- `search_similar` (`search.py:16-116`): the two validation checks (400),
then mode dispatch.  In track mode the `except ValueError` clause maps to
400 and the final `except Exception` clause maps to 500 — and the latter
catches everything else, including the `HTTPException(404)` raised inside the
`try` and the `AttributeError` from the missing method.  In file mode the
single `except Exception` clause maps every raised exception, including the
`HTTPException(415)`, to 500. -/
def search_similar (trackFound : String → Bool) (extOk audioOk : Bool)
    (hyp : List SimResult) (req : SearchRequest) : SearchOutcome :=
  let hasTid := pyTruthyStr req.track_id
  if !hasTid && !req.has_file then SearchOutcome.httpError 400
  else if hasTid && req.has_file then SearchOutcome.httpError 400
  else if hasTid then
    match trackModeBody trackFound (req.track_id.getD "") hyp with
    | Except.ok rs => SearchOutcome.ok rs
    | Except.error PyExc.valueError => SearchOutcome.httpError 400
    | Except.error _ => SearchOutcome.httpError 500
  else
    match fileModeBody extOk audioOk hyp with
    | Except.ok rs => SearchOutcome.ok rs
    | Except.error _ => SearchOutcome.httpError 500

/-- A request is a well-formed similarity search when it supplies exactly one
of `track_id`/file, the named track exists (mode 1), and the uploaded file has
a valid extension and processes cleanly (mode 2). -/
def wellFormedSearch (trackFound : String → Bool) (extOk audioOk : Bool)
    (req : SearchRequest) : Bool :=
  match req.track_id with
  | some tid => !tid.isEmpty && !req.has_file && trackFound tid
  | none => req.has_file && extOk && audioOk

/-! ## Lemmas: the audio embedding pipeline -/

theorem length_padOrTruncate (dim : ℕ) (v : List ℝ) :
    (padOrTruncate dim v).length = dim := by
  unfold padOrTruncate
  split_ifs with h1 h2
  · simp only [List.length_append, List.length_replicate]
    omega
  · simp only [List.length_take]
    omega
  · omega

theorem create_embedding_def (f : FeatureBundle) :
    create_embedding f =
      if euclNorm (padOrTruncate EMBEDDING_DIM (concatComponents f)) > 0 then
        (padOrTruncate EMBEDDING_DIM (concatComponents f)).map
          fun x => x / euclNorm (padOrTruncate EMBEDDING_DIM (concatComponents f))
      else
        (padOrTruncate EMBEDDING_DIM (concatComponents f)).map
          fun x => x /
            (euclNorm (padOrTruncate EMBEDDING_DIM (concatComponents f))
              + 1 / 100000000) :=
  rfl

theorem create_embedding_length (f : FeatureBundle) :
    (create_embedding f).length = EMBEDDING_DIM := by
  rw [create_embedding_def]
  split_ifs <;> simp [length_padOrTruncate]

theorem sumSq_nil : sumSq [] = 0 := by
  simp [sumSq]

theorem sumSq_cons (x : ℝ) (l : List ℝ) : sumSq (x :: l) = x * x + sumSq l := by
  simp [sumSq]

theorem sumSq_nonneg (l : List ℝ) : 0 ≤ sumSq l := by
  induction l with
  | nil => simp [sumSq_nil]
  | cons x l ih =>
    rw [sumSq_cons]
    exact add_nonneg (mul_self_nonneg x) ih

theorem sumSq_eq_zero_iff (l : List ℝ) : sumSq l = 0 ↔ ∀ x ∈ l, x = 0 := by
  induction l with
  | nil => simp [sumSq_nil]
  | cons x l ih =>
    rw [sumSq_cons,
      add_eq_zero_iff_of_nonneg (mul_self_nonneg x) (sumSq_nonneg l),
      mul_self_eq_zero, List.forall_mem_cons, ih]

theorem sumSq_map_div (l : List ℝ) (c : ℝ) :
    sumSq (l.map fun x => x / c) = sumSq l / (c * c) := by
  induction l with
  | nil => simp [sumSq_nil]
  | cons x l ih =>
    rw [List.map_cons, sumSq_cons, sumSq_cons, ih, div_mul_div_comm,
      div_add_div_same]

/-- Case analysis on `create_embedding`: either the padded concatenation is the
zero vector and is returned unnormalized (equal to itself and to the all-zero
vector of length `EMBEDDING_DIM` — the code's division of it by
`norm + 1e-8` is the identity on it), or it has positive squared norm and the
result has squared norm exactly 1. -/
theorem create_embedding_cases (f : FeatureBundle) :
    (sumSq (padOrTruncate EMBEDDING_DIM (concatComponents f)) = 0 ∧
      create_embedding f = padOrTruncate EMBEDDING_DIM (concatComponents f) ∧
      create_embedding f = List.replicate EMBEDDING_DIM (0 : ℝ)) ∨
    (0 < sumSq (padOrTruncate EMBEDDING_DIM (concatComponents f)) ∧
      sumSq (create_embedding f) = 1) := by
  rcases (sumSq_nonneg (padOrTruncate EMBEDDING_DIM (concatComponents f))).eq_or_lt
    with h | h
  · left
    have hz : ∀ x ∈ padOrTruncate EMBEDDING_DIM (concatComponents f), x = 0 :=
      (sumSq_eq_zero_iff _).mp h.symm
    have hrep : padOrTruncate EMBEDDING_DIM (concatComponents f)
        = List.replicate EMBEDDING_DIM (0 : ℝ) :=
      List.eq_replicate_iff.mpr ⟨length_padOrTruncate _ _, hz⟩
    have hnorm : ¬ euclNorm (padOrTruncate EMBEDDING_DIM (concatComponents f)) > 0 := by
      rw [euclNorm, ← h, Real.sqrt_zero]
      exact lt_irrefl 0
    have hce : create_embedding f
        = (padOrTruncate EMBEDDING_DIM (concatComponents f)).map
            fun x => x / (euclNorm (padOrTruncate EMBEDDING_DIM (concatComponents f))
              + 1 / 100000000) := by
      rw [create_embedding_def, if_neg hnorm]
    have hmap : (padOrTruncate EMBEDDING_DIM (concatComponents f)).map
        (fun x => x / (euclNorm (padOrTruncate EMBEDDING_DIM (concatComponents f))
          + 1 / 100000000)) = List.replicate EMBEDDING_DIM (0 : ℝ) := by
      refine List.eq_replicate_iff.mpr ⟨?_, ?_⟩
      · rw [List.length_map, length_padOrTruncate]
      · intro b hb
        rcases List.mem_map.mp hb with ⟨x, hx, rfl⟩
        rw [hz x hx, zero_div]
    refine ⟨h.symm, ?_, ?_⟩
    · rw [hce, hmap, hrep]
    · rw [hce, hmap]
  · right
    have hnorm : euclNorm (padOrTruncate EMBEDDING_DIM (concatComponents f)) > 0 := by
      rw [euclNorm]
      exact Real.sqrt_pos.mpr h
    have hce : create_embedding f
        = (padOrTruncate EMBEDDING_DIM (concatComponents f)).map
            fun x => x / euclNorm (padOrTruncate EMBEDDING_DIM (concatComponents f)) := by
      rw [create_embedding_def, if_pos hnorm]
    refine ⟨h, ?_⟩
    rw [hce, sumSq_map_div, euclNorm, Real.mul_self_sqrt (le_of_lt h),
      div_self (ne_of_gt h)]

theorem sumSq_replicate_zero (n : ℕ) : sumSq (List.replicate n (0 : ℝ)) = 0 := by
  rw [sumSq_eq_zero_iff]
  intro x hx
  exact (List.eq_of_mem_replicate hx)

/-- C1 (amended).  For every feature bundle, the embedding returned by
`AudioService.create_embedding` has exactly `EMBEDDING_DIM = 1536` components
(the config default `settings.EMBEDDING_DIM`, not the stale `128` of the
audio-service comments), and its Euclidean norm is either 0 or exactly 1 (in
the real-number idealization of float arithmetic). -/
theorem C1_build_length_and_norm (f : FeatureBundle) :
    (create_embedding f).length = 1536 ∧
      (euclNorm (create_embedding f) = 0 ∨ euclNorm (create_embedding f) = 1) := by
  refine ⟨create_embedding_length f, ?_⟩
  rcases create_embedding_cases f with ⟨_, _, hrep⟩ | ⟨_, hone⟩
  · left
    rw [hrep, euclNorm, sumSq_replicate_zero, Real.sqrt_zero]
  · right
    rw [euclNorm, hone, Real.sqrt_one]

/-- C1 counterexample.  The claim fixes `targetDim` as `EMBEDDING_DIM = 128`,
but `settings.EMBEDDING_DIM` (`config.py:22`) is 1536, so the embedding of a
concrete bundle does not have 128 components. -/
theorem C1_cex_not_128_components :
    (create_embedding zeroBundle).length ≠ 128 := by
  rw [create_embedding_length]
  decide

/-- C2 (confirmed).  When the concatenated, scalar-normalized, zero-padded
vector has Euclidean norm 0, `create_embedding` returns it unnormalized: the
result equals that padded vector itself and equals the all-zero vector of
length `EMBEDDING_DIM`.  (The code's zero-norm branch divides by
`norm + 1e-8`, but on the zero vector that division is the identity, so the
returned embedding is exactly the unnormalized zero vector.) -/
theorem C2_zero_norm_left_unnormalized (f : FeatureBundle)
    (h : sumSq (padOrTruncate EMBEDDING_DIM (concatComponents f)) = 0) :
    create_embedding f = padOrTruncate EMBEDDING_DIM (concatComponents f) ∧
      create_embedding f = List.replicate EMBEDDING_DIM (0 : ℝ) := by
  rcases create_embedding_cases f with ⟨_, he, hrep⟩ | ⟨hpos, _⟩
  · exact ⟨he, hrep⟩
  · exact absurd h (ne_of_gt hpos)

/-- Witness for C2 at the concrete all-zero feature bundle. -/
theorem C2_zero_norm_left_unnormalized_witness :
    sumSq (padOrTruncate EMBEDDING_DIM (concatComponents zeroBundle)) = 0 ∧
      create_embedding zeroBundle = List.replicate EMBEDDING_DIM (0 : ℝ) := by
  have h : sumSq (padOrTruncate EMBEDDING_DIM (concatComponents zeroBundle)) = 0 := by
    rw [sumSq_eq_zero_iff]
    intro x hx
    simp only [concatComponents, zeroBundle, zero_div, List.nil_append,
      padOrTruncate, EMBEDDING_DIM] at hx
    simp only [List.length_cons, List.length_nil] at hx
    norm_num at hx
    exact hx
  exact ⟨h, (C2_zero_norm_left_unnormalized zeroBundle h).2⟩

/-! ## Lemmas: the mood classifier -/

theorem foldr_max_le_of_mem {l : List ℕ} {x : ℕ} (hx : x ∈ l) :
    x ≤ l.foldr max 0 := by
  induction l with
  | nil => cases hx
  | cons a l ih =>
    rw [List.foldr_cons]
    rcases List.mem_cons.mp hx with rfl | hx
    · exact le_max_left _ _
    · exact le_trans (ih hx) (le_max_right _ _)

theorem foldr_max_eq_zero_or_mem (l : List ℕ) :
    l.foldr max 0 = 0 ∨ l.foldr max 0 ∈ l := by
  induction l with
  | nil => exact Or.inl rfl
  | cons a l ih =>
    rw [List.foldr_cons]
    rcases le_total a (l.foldr max 0) with h | h
    · rw [max_eq_right h]
      rcases ih with h0 | hm
      · exact Or.inl h0
      · exact Or.inr (List.mem_cons_of_mem a hm)
    · rw [max_eq_left h]
      exact Or.inr (List.mem_cons_self a l)

theorem moodScore_congr {nt nt2 : List String}
    (hmem : ∀ k : String, k ∈ nt ↔ k ∈ nt2) (kw : List String) :
    moodScore nt kw = moodScore nt2 kw := by
  unfold moodScore
  congr 1
  apply List.filter_congr
  intro k _
  rw [Bool.eq_iff_iff]
  simp only [List.elem_eq_mem, decide_eq_true_eq]
  exact hmem k

theorem moodScore_nil (kw : List String) : moodScore [] kw = 0 := by
  induction kw with
  | nil => rfl
  | cons k kw ih =>
    unfold moodScore at *
    rw [List.filter_cons, if_neg (by simp [List.elem_eq_mem])]
    exact ih

/-- Python's `max` with a key returns the first element attaining the maximal
key: the fold that keeps the incumbent unless a strictly larger key appears
agrees with `find?` for the maximal value. -/
theorem pyMax_find (t : List (String × ℕ)) (h : String × ℕ) :
    (h :: t).find?
        (fun p => decide (((h :: t).map Prod.snd).foldr max 0 ≤ p.2))
      = some (t.foldl pyMaxStep h) := by
  induction t generalizing h with
  | nil =>
    rw [List.foldl_nil]
    apply List.find?_cons_of_pos
    simp [Nat.max_zero]
  | cons q t2 ih =>
    by_cases hq : h.2 < q.2
    · have hstep : pyMaxStep h q = q := if_pos hq
      have hM : ((h :: q :: t2).map Prod.snd).foldr max 0
          = ((q :: t2).map Prod.snd).foldr max 0 := by
        simp only [List.map_cons, List.foldr_cons]
        exact max_eq_right (le_trans (le_of_lt hq) (le_max_left _ _))
      have hhead : ¬ (((h :: q :: t2).map Prod.snd).foldr max 0 ≤ h.2) := by
        rw [hM]
        intro hle
        simp only [List.map_cons, List.foldr_cons] at hle
        exact absurd (le_trans (le_max_left q.2 _) hle) (not_le.mpr hq)
      rw [List.find?_cons_of_neg _ (by simpa using hhead), hM,
        List.foldl_cons, hstep]
      exact ih q
    · have hstep : pyMaxStep h q = h := if_neg hq
      have hq2 : q.2 ≤ h.2 := not_lt.mp hq
      have hM : ((h :: q :: t2).map Prod.snd).foldr max 0
          = ((h :: t2).map Prod.snd).foldr max 0 := by
        simp only [List.map_cons, List.foldr_cons]
        rw [← max_assoc, max_eq_left hq2]
      have ihh := ih h
      by_cases hhead : ((h :: q :: t2).map Prod.snd).foldr max 0 ≤ h.2
      · rw [List.find?_cons_of_pos _ (by simpa using hhead),
          List.foldl_cons, hstep]
        have hhead2 : ((h :: t2).map Prod.snd).foldr max 0 ≤ h.2 := hM ▸ hhead
        rw [List.find?_cons_of_pos _ (by simpa using hhead2)] at ihh
        exact ihh
      · have hqtest : ¬ (((h :: q :: t2).map Prod.snd).foldr max 0 ≤ q.2) :=
          fun hle => hhead (le_trans hle hq2)
        rw [List.find?_cons_of_neg _ (by simpa using hhead),
          List.find?_cons_of_neg _ (by simpa using hqtest),
          List.foldl_cons, hstep, hM]
        have hhead2 : ¬ (((h :: t2).map Prod.snd).foldr max 0 ≤ h.2) := by
          rw [← hM]
          exact hhead
        rw [List.find?_cons_of_neg _ (by simpa using hhead2)] at ihh
        exact ihh

theorem moodEntry_pos {nt : List String} {p : String × List String}
    (hs : moodScore nt p.2 > 0) :
    moodEntry nt p = some (p.1, moodScore nt p.2) := by
  show (if moodScore nt p.2 > 0
    then some (p.1, moodScore nt p.2) else none) = _
  rw [if_pos hs]

theorem moodEntry_neg {nt : List String} {p : String × List String}
    (hs : ¬ moodScore nt p.2 > 0) : moodEntry nt p = none := by
  show (if moodScore nt p.2 > 0
    then some (p.1, moodScore nt p.2) else none) = _
  rw [if_neg hs]

/-- Dropping the zero-score moods does not change the maximal score. -/
theorem scores_map_snd_foldr (nt : List String)
    (tbl : List (String × List String)) :
    ((tbl.filterMap (moodEntry nt)).map Prod.snd).foldr max 0
      = (tbl.map fun p => moodScore nt p.2).foldr max 0 := by
  induction tbl with
  | nil => rfl
  | cons p tbl ih =>
    by_cases hs : moodScore nt p.2 > 0
    · rw [List.filterMap_cons_some (moodEntry_pos hs),
        List.map_cons, List.map_cons, List.foldr_cons, List.foldr_cons, ih]
    · have hs0 : moodScore nt p.2 = 0 := Nat.eq_zero_of_not_pos hs
      rw [List.filterMap_cons_none (moodEntry_neg hs),
        List.map_cons, List.foldr_cons, ih, hs0, Nat.zero_max]

/-- For a positive threshold, searching the positive-score list and searching
the whole rule table find the same first mood. -/
theorem scores_find_fst (nt : List String) (M : ℕ) (hM : 0 < M)
    (tbl : List (String × List String)) :
    ((tbl.filterMap (moodEntry nt)).find?
          fun r => decide (M ≤ r.2)).map Prod.fst
      = (tbl.find? fun p => decide (M ≤ moodScore nt p.2)).map Prod.fst := by
  induction tbl with
  | nil => rfl
  | cons p tbl ih =>
    by_cases hs : moodScore nt p.2 > 0
    · rw [List.filterMap_cons_some (moodEntry_pos hs)]
      by_cases ht : M ≤ moodScore nt p.2
      · rw [List.find?_cons_of_pos _ (by simpa using ht),
          List.find?_cons_of_pos _ (by simpa using ht)]
        rfl
      · rw [List.find?_cons_of_neg _ (by simpa using ht),
          List.find?_cons_of_neg _ (by simpa using ht)]
        exact ih
    · have hs0 : moodScore nt p.2 = 0 := Nat.eq_zero_of_not_pos hs
      have ht : ¬ (M ≤ moodScore nt p.2) := by
        rw [hs0]
        omega
      rw [List.filterMap_cons_none (moodEntry_neg hs),
        List.find?_cons_of_neg _ (by simpa using ht)]
      exact ih

theorem infer_mood_perm {tags tags2 : List String} (hp : tags.Perm tags2) :
    infer_mood tags = infer_mood tags2 := by
  have hmem : ∀ k : String,
      k ∈ tags.map normalizeTag ↔ k ∈ tags2.map normalizeTag :=
    fun k => (hp.map normalizeTag).mem_iff
  have hfun : moodEntry (tags.map normalizeTag)
      = moodEntry (tags2.map normalizeTag) :=
    funext fun p => by
      show (if moodScore (tags.map normalizeTag) p.2 > 0
          then some (p.1, moodScore (tags.map normalizeTag) p.2) else none)
        = (if moodScore (tags2.map normalizeTag) p.2 > 0
          then some (p.1, moodScore (tags2.map normalizeTag) p.2) else none)
      rw [moodScore_congr hmem]
  have hscores : moodScoresList (tags.map normalizeTag)
      = moodScoresList (tags2.map normalizeTag) := by
    unfold moodScoresList
    rw [hfun]
  have hempty : tags.isEmpty = tags2.isEmpty := by
    rw [Bool.eq_iff_iff, List.isEmpty_iff, List.isEmpty_iff]
    constructor
    · intro h
      subst h
      exact hp.nil_eq.symm
    · intro h
      subst h
      exact hp.symm.nil_eq.symm
  unfold infer_mood
  simp only [hempty, hscores]

theorem infer_mood_of_not_empty {tags : List String}
    (h : ¬ tags.isEmpty = true) :
    infer_mood tags
      = match moodScoresList (tags.map normalizeTag) with
        | [] => none
        | hd :: tl => some (List.foldl pyMaxStep hd tl).1 := by
  unfold infer_mood
  rw [if_neg h]

/-- C6 (confirmed).  `MoodService.infer_mood` is invariant under permutation
of the input tag list (and, being a pure function, identical across repeated
calls), and whenever the maximal keyword-overlap count is positive — in
particular whenever two or more labels tie at the maximum — it returns the
first-defined label of the rule table attaining that maximum (`find?` returns
the first match in `MOOD_MAPPINGS` order). -/
theorem C6_classify_tie_break :
    (∀ tags tags2 : List String, tags.Perm tags2 →
        infer_mood tags = infer_mood tags2) ∧
    (∀ tags : List String, 0 < maxMoodScore tags →
        infer_mood tags =
          (MOOD_MAPPINGS.find? fun p =>
            decide (maxMoodScore tags
              ≤ moodScore (tags.map normalizeTag) p.2)).map Prod.fst) := by
  constructor
  · exact fun tags tags2 hp => infer_mood_perm hp
  · intro tags hpos
    have hmax : maxMoodScore tags
        = (MOOD_MAPPINGS.map fun p =>
            moodScore (tags.map normalizeTag) p.2).foldr max 0 := rfl
    have hmem : maxMoodScore tags ∈
        MOOD_MAPPINGS.map fun p => moodScore (tags.map normalizeTag) p.2 := by
      rcases foldr_max_eq_zero_or_mem
          (MOOD_MAPPINGS.map fun p => moodScore (tags.map normalizeTag) p.2)
        with h0 | hm
      · rw [hmax, h0] at hpos
        exact absurd hpos (lt_irrefl 0)
      · rw [hmax]
        exact hm
    obtain ⟨p, hpMem, hpScore⟩ := List.mem_map.mp hmem
    have hppos : 0 < moodScore (tags.map normalizeTag) p.2 := by
      rw [hpScore]
      exact hpos
    have hnt : tags.map normalizeTag ≠ [] := by
      intro h
      rw [h, moodScore_nil] at hppos
      exact absurd hppos (lt_irrefl 0)
    have htags : ¬ (tags.isEmpty = true) := by
      rw [List.isEmpty_iff]
      intro h
      exact hnt (by rw [h]; rfl)
    have hentry : (p.1, moodScore (tags.map normalizeTag) p.2)
        ∈ moodScoresList (tags.map normalizeTag) :=
      List.mem_filterMap.mpr ⟨p, hpMem, moodEntry_pos hppos⟩
    rw [infer_mood_of_not_empty htags]
    cases hsc : moodScoresList (tags.map normalizeTag) with
    | nil =>
      rw [hsc] at hentry
      exact absurd hentry (List.not_mem_nil _)
    | cons hd tl =>
      have hsc2 : MOOD_MAPPINGS.filterMap
          (moodEntry (tags.map normalizeTag)) = hd :: tl := hsc
      rw [← scores_find_fst (tags.map normalizeTag) (maxMoodScore tags) hpos
          MOOD_MAPPINGS,
        hsc2]
      have hM2 : maxMoodScore tags = ((hd :: tl).map Prod.snd).foldr max 0 := by
        rw [← hsc2, scores_map_snd_foldr]
        rfl
      rw [hM2, pyMax_find tl hd]
      rfl

/-- Witness for C6: the tags `chill` and `happy` give the labels `chill` and
`happy` an equal maximal score of 1; the classifier resolves to `chill`, the
first-defined of the two, independently of the tag order. -/
theorem C6_classify_tie_break_witness :
    (["chill", "happy"] : List String).Perm ["happy", "chill"] ∧
    infer_mood ["chill", "happy"] = infer_mood ["happy", "chill"] ∧
    0 < maxMoodScore ["chill", "happy"] ∧
    infer_mood ["chill", "happy"]
      = (MOOD_MAPPINGS.find? fun p =>
          decide (maxMoodScore ["chill", "happy"]
            ≤ moodScore ((["chill", "happy"] : List String).map normalizeTag)
                p.2)).map Prod.fst :=
  ⟨by decide,
   C6_classify_tie_break.1 _ _ (by decide),
   by decide,
   C6_classify_tie_break.2 _ (by decide)⟩

/-- C7 (confirmed).  With the default rule table:
`classify({"lofi","study"})` is the focus label, `classify` of an empty
collection is `None`, `classify({"unknown-tag"})` is `None`, and in general
`classify` returns no label exactly when the input is empty or every label's
keyword-overlap count is zero. -/
theorem C7_classify_examples :
    infer_mood ["lofi", "study"] = some "focus" ∧
    infer_mood [] = none ∧
    infer_mood ["unknown-tag"] = none ∧
    ∀ tags : List String,
      (infer_mood tags = none ↔
        tags = [] ∨ ∀ p ∈ MOOD_MAPPINGS,
          moodScore (tags.map normalizeTag) p.2 = 0) := by
  refine ⟨by decide, by decide, by decide, ?_⟩
  intro tags
  by_cases h : tags = []
  · subst h
    simp [infer_mood]
  · have hne : ¬ (tags.isEmpty = true) := by
      rw [List.isEmpty_iff]
      exact h
    rw [infer_mood_of_not_empty hne]
    cases hsc : moodScoresList (tags.map normalizeTag) with
    | nil =>
      constructor
      · intro _
        right
        intro p hp
        have hnone := List.filterMap_eq_nil_iff.mp hsc p hp
        by_contra hpos0
        rw [moodEntry_pos (Nat.pos_of_ne_zero hpos0)] at hnone
        exact Option.noConfusion hnone
      · intro _
        rfl
    | cons hd tl =>
      constructor
      · intro habs
        exact Option.noConfusion habs
      · rintro (h1 | h2)
        · exact absurd h1 h
        · exfalso
          have hd_mem : hd ∈ moodScoresList (tags.map normalizeTag) := by
            rw [hsc]
            exact List.mem_cons_self hd tl
          obtain ⟨p, hpMem, hpe⟩ := List.mem_filterMap.mp hd_mem
          by_cases hpos2 : moodScore (tags.map normalizeTag) p.2 > 0
          · have := h2 p hpMem
            omega
          · rw [moodEntry_neg hpos2] at hpe
            exact Option.noConfusion hpe

/-! ## Lemmas: the (score descending, id ascending) ranking order -/

section RankOrderLemmas

variable {α : Type} (ks : α → ℚ) (ki : α → ℕ)

theorem rankRel_both {a b : α} (h1 : rankRel ks ki a b) (h2 : rankRel ks ki b a) :
    ks a = ks b ∧ ki a = ki b := by
  rcases h1 with h1 | ⟨h1, h1i⟩
  · rcases h2 with h2 | ⟨h2, _⟩
    · exact absurd h1 (lt_asymm h2)
    · exact absurd h1 (by rw [h2]; exact lt_irrefl (ks a))
  · rcases h2 with h2 | ⟨_, h2i⟩
    · exact absurd h2 (by rw [h1]; exact lt_irrefl (ks b))
    · exact ⟨h1, le_antisymm h1i h2i⟩

theorem rankRel_antisymm_ids {l : List α} (hl : (l.map ki).Nodup) {a b : α}
    (ha : a ∈ l) (hb : b ∈ l) (hab : rankRel ks ki a b)
    (hba : rankRel ks ki b a) : a = b :=
  List.inj_on_of_nodup_map hl ha hb (rankRel_both ks ki hab hba).2

theorem sorted_perm_eq {r : α → α → Prop} :
    ∀ {l₁ l₂ : List α}, l₁.Perm l₂ → List.Sorted r l₁ → List.Sorted r l₂ →
      (∀ a ∈ l₁, ∀ b ∈ l₁, r a b → r b a → a = b) → l₁ = l₂ := by
  intro l₁
  induction l₁ with
  | nil => exact fun hp _ _ _ => hp.nil_eq
  | cons a t₁ ih =>
    intro l₂ hp hs₁ hs₂ anti
    cases l₂ with
    | nil => exact absurd hp (by simp)
    | cons b t₂ =>
      have hab : a = b := by
        have hbl1 : b ∈ a :: t₁ := hp.mem_iff.mpr (List.mem_cons_self b t₂)
        have hal2 : a ∈ b :: t₂ := hp.subset (List.mem_cons_self a t₁)
        rcases List.mem_cons.mp hbl1 with h1 | h1
        · exact h1.symm
        · rcases List.mem_cons.mp hal2 with h2 | h2
          · exact h2
          · have rab : r a b := List.rel_of_sorted_cons hs₁ b h1
            have rba : r b a := List.rel_of_sorted_cons hs₂ a h2
            exact anti a (List.mem_cons_self a t₁) b hbl1 rab rba
      subst hab
      have ht : t₁ = t₂ :=
        ih hp.cons_inv hs₁.of_cons hs₂.of_cons
          fun x hx y hy => anti x (List.mem_cons_of_mem a hx) y
            (List.mem_cons_of_mem a hy)
      rw [ht]

theorem sortRank_sorted (l : List α) :
    List.Sorted (rankRel ks ki) (sortRank ks ki l) :=
  List.sorted_insertionSort (rankRel ks ki) l

theorem sortRank_perm (l : List α) : (sortRank ks ki l).Perm l :=
  List.perm_insertionSort (rankRel ks ki) l

theorem sortRank_length (l : List α) :
    (sortRank ks ki l).length = l.length :=
  List.length_insertionSort (rankRel ks ki) l

theorem idsNodup_perm {l₁ l₂ : List α} (hp : l₁.Perm l₂)
    (h : idsNodup ki l₁) : idsNodup ki l₂ :=
  (hp.map ki).nodup h

theorem idsNodup_sublist {l₁ l₂ : List α} (hs : l₁.Sublist l₂)
    (h : idsNodup ki l₂) : idsNodup ki l₁ :=
  List.Nodup.sublist (hs.map ki) h

theorem idsNodup_of_subperm {l₁ l₂ : List α} (hs : l₁.Subperm l₂)
    (h : idsNodup ki l₂) : idsNodup ki l₁ := by
  obtain ⟨m, hp, hsub⟩ := hs
  exact idsNodup_perm ki hp (idsNodup_sublist ki hsub h)

theorem subperm_append {l₁ l₂ l₃ l₄ : List α} (h₁ : l₁.Subperm l₂)
    (h₂ : l₃.Subperm l₄) : (l₁ ++ l₃).Subperm (l₂ ++ l₄) := by
  obtain ⟨m₁, hp₁, hs₁⟩ := h₁
  obtain ⟨m₂, hp₂, hs₂⟩ := h₂
  exact ⟨m₁ ++ m₂, hp₁.append hp₂, hs₁.append hs₂⟩

theorem topK_subperm (k : ℕ) (l : List α) : (topK ks ki k l).Subperm l :=
  ((List.take_sublist k (sortRank ks ki l)).subperm).trans
    (sortRank_perm ks ki l).subperm

theorem sortRank_congr {l₁ l₂ : List α} (hp : l₁.Perm l₂)
    (hids : idsNodup ki l₂) : sortRank ks ki l₁ = sortRank ks ki l₂ := by
  apply sorted_perm_eq
    (((sortRank_perm ks ki l₁).trans hp).trans (sortRank_perm ks ki l₂).symm)
    (sortRank_sorted ks ki l₁) (sortRank_sorted ks ki l₂)
  intro a ha b hb hab hba
  have ha2 : a ∈ l₂ := hp.subset ((sortRank_perm ks ki l₁).subset ha)
  have hb2 : b ∈ l₂ := hp.subset ((sortRank_perm ks ki l₁).subset hb)
  exact rankRel_antisymm_ids ks ki hids ha2 hb2 hab hba

theorem topK_congr {l₁ l₂ : List α} (k : ℕ) (hp : l₁.Perm l₂)
    (hids : idsNodup ki l₂) : topK ks ki k l₁ = topK ks ki k l₂ := by
  unfold topK
  rw [sortRank_congr ks ki hp hids]

end RankOrderLemmas

section TopKLemmas

variable {α : Type} (ks : α → ℚ) (ki : α → ℕ)

theorem take_orderedInsert (y : α) (l : List α) :
    ∀ k : ℕ, k ≤ l.length → (∀ x ∈ l.take k, ¬ rankRel ks ki y x) →
      (List.orderedInsert (rankRel ks ki) y l).take k = l.take k := by
  induction l with
  | nil =>
    intro k hlen _
    have hk0 : k = 0 := Nat.le_zero.mp hlen
    subst hk0
    simp
  | cons x xs ih =>
    intro k hlen hk
    cases k with
    | zero => simp
    | succ k =>
      have hx : ¬ rankRel ks ki y x :=
        hk x (by rw [List.take_succ_cons]; exact List.mem_cons_self x _)
      rw [List.orderedInsert, if_neg hx, List.take_succ_cons,
        List.take_succ_cons]
      congr 1
      apply ih k
      · simp only [List.length_cons] at hlen
        omega
      · intro z hz
        exact hk z (by rw [List.take_succ_cons]; exact List.mem_cons_of_mem x hz)

theorem sortRank_append_singleton (l : List α) (y : α)
    (hids : idsNodup ki (l ++ [y])) :
    sortRank ks ki (l ++ [y])
      = List.orderedInsert (rankRel ks ki) y (sortRank ks ki l) := by
  apply sorted_perm_eq
  · exact ((sortRank_perm ks ki (l ++ [y])).trans
      (List.perm_append_singleton y l)).trans
      (((sortRank_perm ks ki l).cons y).symm.trans
        (List.perm_orderedInsert (rankRel ks ki) y (sortRank ks ki l)).symm)
  · exact sortRank_sorted ks ki (l ++ [y])
  · exact List.Sorted.orderedInsert y (sortRank ks ki l)
      (sortRank_sorted ks ki l)
  · intro a ha b hb hab hba
    have ha2 : a ∈ l ++ [y] := (sortRank_perm ks ki (l ++ [y])).subset ha
    have hb2 : b ∈ l ++ [y] := (sortRank_perm ks ki (l ++ [y])).subset hb
    exact rankRel_antisymm_ids ks ki hids ha2 hb2 hab hba

theorem rankRel_take_drop {l : List α} {k : ℕ} {a b : α}
    (ha : a ∈ (sortRank ks ki l).take k)
    (hb : b ∈ (sortRank ks ki l).drop k) : rankRel ks ki a b := by
  have hs := sortRank_sorted ks ki l
  rw [← List.take_append_drop k (sortRank ks ki l)] at hs
  exact (List.pairwise_append.mp hs).2.2 a ha b hb

theorem not_rankRel_of_take {m u : List α} {y x : α} {k : ℕ}
    (hids : idsNodup ki (m ++ [y]))
    (hulen : u.length = k) (huids : (u.map ki).Nodup)
    (husub : ∀ z ∈ u, z ∈ m)
    (hdom : ∀ z ∈ u, rankRel ks ki z y)
    (hx : x ∈ (sortRank ks ki m).take k) :
    ¬ rankRel ks ki y x := by
  intro hyx
  have hmids : idsNodup ki m := by
    unfold idsNodup at *
    rw [List.map_append] at hids
    exact List.Nodup.of_append_left hids
  have hyid : ∀ z ∈ m, ki z ≠ ki y := by
    unfold idsNodup at hids
    rw [List.map_append] at hids
    have hdisj := List.disjoint_of_nodup_append hids
    intro z hz heq
    exact hdisj (List.mem_map_of_mem ki hz) (List.mem_singleton.mpr heq)
  have hxm : x ∈ m :=
    (sortRank_perm ks ki m).subset (List.take_subset k _ hx)
  have hzx_ne : ∀ z ∈ u, z ≠ x := by
    intro z hz heq
    have h1 : rankRel ks ki z y := hdom z hz
    rw [heq] at h1
    exact hyid x hxm (rankRel_both ks ki h1 hyx).2
  by_cases hcase : ∀ z ∈ u, z ∈ (sortRank ks ki m).take k
  · have hxu : x ∉ u := fun hxin => hzx_ne x hxin rfl
    have hcons_nodup : (x :: u).Nodup :=
      List.nodup_cons.mpr ⟨hxu, List.Nodup.of_map ki huids⟩
    have hsub : ∀ w ∈ x :: u, w ∈ (sortRank ks ki m).take k := by
      rw [List.forall_mem_cons]
      exact ⟨hx, hcase⟩
    have hle := (List.subperm_of_subset hcons_nodup hsub).length_le
    have hle2 : ((sortRank ks ki m).take k).length ≤ k :=
      List.length_take_le k _
    simp only [List.length_cons, hulen] at hle
    omega
  · push_neg at hcase
    obtain ⟨z, hz, hznotin⟩ := hcase
    have hzin : z ∈ (sortRank ks ki m).take k ++ (sortRank ks ki m).drop k := by
      rw [List.take_append_drop]
      exact (sortRank_perm ks ki m).symm.subset (husub z hz)
    rcases List.mem_append.mp hzin with h1 | h1
    · exact hznotin h1
    · have hxz : rankRel ks ki x z := rankRel_take_drop ks ki hx h1
      have hzx : rankRel ks ki z x :=
        IsTrans.trans z y x (hdom z hz) hyx
      have heq : ki z = ki x := (rankRel_both ks ki hzx hxz).2
      exact hzx_ne z hz (List.inj_on_of_nodup_map hmids (husub z hz) hxm heq)

/-- Appending candidates that are each dominated by `k` distinct candidates
already present does not change the top `k`. -/
theorem take_sortRank_append_dominated :
    ∀ (w m u : List α) (k : ℕ),
      idsNodup ki (m ++ w) →
      u.length = k → (u.map ki).Nodup → (∀ z ∈ u, z ∈ m) →
      (∀ y ∈ w, ∀ z ∈ u, rankRel ks ki z y) →
      (sortRank ks ki (m ++ w)).take k = (sortRank ks ki m).take k := by
  intro w
  induction w with
  | nil =>
    intro m u k _ _ _ _ _
    rw [List.append_nil]
  | cons y w2 ih =>
    intro m u k hids hulen huids husub hdom
    rw [List.append_cons] at hids ⊢
    have hids_my : idsNodup ki (m ++ [y]) := by
      unfold idsNodup at *
      rw [List.map_append] at hids
      exact List.Nodup.of_append_left hids
    rw [ih (m ++ [y]) u k hids hulen huids
      (fun z hz => List.mem_append_left [y] (husub z hz))
      (fun y2 hy2 z hz => hdom y2 (List.mem_cons_of_mem y hy2) z hz)]
    rw [sortRank_append_singleton ks ki m y hids_my]
    apply take_orderedInsert
    · rw [sortRank_length]
      have := (List.subperm_of_subset (List.Nodup.of_map ki huids)
        husub).length_le
      omega
    · intro x hxx
      exact not_rankRel_of_take ks ki hids_my hulen huids husub
        (hdom y (List.mem_cons_self y w2)) hxx

/-- Truncating one side of an append to its top `k` before ranking does not
change the overall top `k`. -/
theorem topK_append_topK (x y : List α) (k : ℕ)
    (hids : idsNodup ki (x ++ y)) :
    topK ks ki k (x ++ topK ks ki k y) = topK ks ki k (x ++ y) := by
  by_cases hlen : y.length ≤ k
  · have h1 : topK ks ki k y = sortRank ks ki y := by
      unfold topK
      exact List.take_of_length_le (by rw [sortRank_length]; exact hlen)
    rw [h1]
    exact topK_congr ks ki k
      (List.Perm.append_left x (sortRank_perm ks ki y)) hids
  · push_neg at hlen
    have hsplit : (sortRank ks ki y).take k ++ (sortRank ks ki y).drop k
        = sortRank ks ki y := List.take_append_drop k _
    have hperm : ((x ++ (sortRank ks ki y).take k)
        ++ (sortRank ks ki y).drop k).Perm (x ++ y) := by
      rw [List.append_assoc, hsplit]
      exact List.Perm.append_left x (sortRank_perm ks ki y)
    have hids2 : idsNodup ki ((x ++ (sortRank ks ki y).take k)
        ++ (sortRank ks ki y).drop k) := idsNodup_perm ki hperm.symm hids
    have hyids : idsNodup ki y := by
      unfold idsNodup at *
      rw [List.map_append] at hids
      exact List.Nodup.of_append_right hids
    unfold topK
    have hcongr : sortRank ks ki (x ++ y)
        = sortRank ks ki ((x ++ (sortRank ks ki y).take k)
            ++ (sortRank ks ki y).drop k) :=
      (sortRank_congr ks ki hperm hids).symm
    rw [hcongr]
    exact (take_sortRank_append_dominated ks ki
      ((sortRank ks ki y).drop k)
      (x ++ (sortRank ks ki y).take k)
      ((sortRank ks ki y).take k) k
      hids2
      (by
        rw [List.length_take, sortRank_length]
        exact Nat.min_eq_left (le_of_lt hlen))
      (idsNodup_sublist ki (List.take_sublist k _)
        (idsNodup_perm ki (sortRank_perm ks ki y).symm hyids))
      (fun z hz => List.mem_append_right x hz)
      (fun y2 hy2 z hz => rankRel_take_drop ks ki hz hy2)).symm

end TopKLemmas

section TopKFlatten

variable {α : Type} (ks : α → ℚ) (ki : α → ℕ)

theorem perm_rotate (a b c : List α) : ((a ++ b) ++ c).Perm ((a ++ c) ++ b) := by
  rw [List.append_assoc, List.append_assoc]
  exact List.Perm.append_left a List.perm_append_comm

theorem flatten_map_topK_subperm (k : ℕ) (ps : List (List α)) :
    ((ps.map (topK ks ki k)).flatten).Subperm ps.flatten := by
  induction ps with
  | nil => exact List.Subperm.refl _
  | cons p ps ih =>
    rw [List.map_cons, List.flatten_cons, List.flatten_cons]
    exact subperm_append (topK_subperm ks ki k p) ih

/-- Merging the per-partition top `k` lists and re-ranking gives the same top
`k` as ranking the whole collection (stated with an accumulator for the
induction over partitions). -/
theorem topK_flatten_acc (k : ℕ) :
    ∀ (parts : List (List α)) (acc : List α),
      idsNodup ki (acc ++ parts.flatten) →
      topK ks ki k (acc ++ (parts.map (topK ks ki k)).flatten)
        = topK ks ki k (acc ++ parts.flatten) := by
  intro parts
  induction parts with
  | nil => exact fun acc _ => rfl
  | cons p ps ih =>
    intro acc hids
    rw [List.map_cons, List.flatten_cons, List.flatten_cons]
    have hJsub : ((ps.map (topK ks ki k)).flatten).Subperm ps.flatten :=
      flatten_map_topK_subperm ks ki k ps
    have hperm_base : (acc ++ (p ++ ps.flatten)).Perm
        ((acc ++ ps.flatten) ++ p) := by
      rw [← List.append_assoc]
      exact perm_rotate acc p ps.flatten
    have nFp : idsNodup ki ((acc ++ ps.flatten) ++ p) :=
      idsNodup_perm ki hperm_base hids
    have n3base : idsNodup ki ((acc ++ p) ++ ps.flatten) := by
      rw [List.append_assoc]
      exact hids
    have e1 : topK ks ki k
        (acc ++ (topK ks ki k p ++ (ps.map (topK ks ki k)).flatten))
        = topK ks ki k
          ((acc ++ (ps.map (topK ks ki k)).flatten) ++ topK ks ki k p) := by
      apply topK_congr ks ki k
      · rw [← List.append_assoc]
        exact perm_rotate acc (topK ks ki k p) (ps.map (topK ks ki k)).flatten
      · exact idsNodup_of_subperm ki
          (subperm_append (subperm_append (List.Subperm.refl acc) hJsub)
            (topK_subperm ks ki k p)) nFp
    have e2 : topK ks ki k
        ((acc ++ (ps.map (topK ks ki k)).flatten) ++ topK ks ki k p)
        = topK ks ki k ((acc ++ (ps.map (topK ks ki k)).flatten) ++ p) :=
      topK_append_topK ks ki _ p k
        (idsNodup_of_subperm ki
          (subperm_append (subperm_append (List.Subperm.refl acc) hJsub)
            (List.Subperm.refl p)) nFp)
    have e3 : topK ks ki k ((acc ++ (ps.map (topK ks ki k)).flatten) ++ p)
        = topK ks ki k ((acc ++ p) ++ (ps.map (topK ks ki k)).flatten) := by
      apply topK_congr ks ki k (perm_rotate acc (ps.map (topK ks ki k)).flatten p)
      exact idsNodup_of_subperm ki
        (subperm_append (List.Subperm.refl (acc ++ p)) hJsub) n3base
    have e4 : topK ks ki k ((acc ++ p) ++ (ps.map (topK ks ki k)).flatten)
        = topK ks ki k ((acc ++ p) ++ ps.flatten) := ih (acc ++ p) n3base
    rw [e1, e2, e3, e4, List.append_assoc]

end TopKFlatten

section MapCommute

variable {α β : Type} (ks : α → ℚ) (ki : α → ℕ) (ks2 : β → ℚ) (ki2 : β → ℕ)
variable (g : α → β)

theorem rankRel_map_iff (hks : ∀ a, ks2 (g a) = ks a)
    (hki : ∀ a, ki2 (g a) = ki a) (a b : α) :
    rankRel ks2 ki2 (g a) (g b) ↔ rankRel ks ki a b := by
  unfold rankRel
  rw [hks, hks, hki, hki]

theorem orderedInsert_map (hks : ∀ a, ks2 (g a) = ks a)
    (hki : ∀ a, ki2 (g a) = ki a) (a : α) (l : List α) :
    List.orderedInsert (rankRel ks2 ki2) (g a) (l.map g)
      = (List.orderedInsert (rankRel ks ki) a l).map g := by
  induction l with
  | nil => rfl
  | cons b l ih =>
    rw [List.map_cons, List.orderedInsert, List.orderedInsert]
    by_cases h : rankRel ks ki a b
    · rw [if_pos ((rankRel_map_iff ks ki ks2 ki2 g hks hki a b).mpr h),
        if_pos h, List.map_cons, List.map_cons]
    · rw [if_neg (fun hc =>
          h ((rankRel_map_iff ks ki ks2 ki2 g hks hki a b).mp hc)),
        if_neg h, List.map_cons, ih]

theorem sortRank_map (hks : ∀ a, ks2 (g a) = ks a)
    (hki : ∀ a, ki2 (g a) = ki a) (l : List α) :
    sortRank ks2 ki2 (l.map g) = (sortRank ks ki l).map g := by
  induction l with
  | nil => rfl
  | cons a l ih =>
    unfold sortRank at *
    rw [List.map_cons, List.insertionSort, List.insertionSort, ih,
      orderedInsert_map ks ki ks2 ki2 g hks hki]

theorem topK_map (hks : ∀ a, ks2 (g a) = ks a)
    (hki : ∀ a, ki2 (g a) = ki a) (k : ℕ) (l : List α) :
    topK ks2 ki2 k (l.map g) = (topK ks ki k l).map g := by
  unfold topK
  rw [sortRank_map ks ki ks2 ki2 g hks hki, List.map_take]

end MapCommute

/-! ## Lemmas: the similarity pipeline -/

theorem applyMatch_eq_filter (fs : List (Doc → Bool)) (l : List Doc) :
    applyMatch fs l = l.filter fun d => fs.all fun f => f d := by
  cases fs with
  | nil => simp [applyMatch]
  | cons f fs => rfl

theorem find_similar_books_eq (s : List ℚ → ℚ) (docs : List Doc) (limit : ℕ)
    (ex : Option ℕ) (gf : Option String) :
    find_similar_books s docs limit ex gf
      = ((topK (docScore s) Doc.id limit (withEmbedding docs)).filter
          fun d => (matchFilters ex gf).all fun f => f d).map (projectDoc s) := by
  unfold find_similar_books cosmosSearch
  rw [applyMatch_eq_filter]

theorem find_similar_books_no_filters (s : List ℚ → ℚ) (docs : List Doc)
    (limit : ℕ) :
    find_similar_books s docs limit none none
      = (topK (docScore s) Doc.id limit (withEmbedding docs)).map
          (projectDoc s) :=
  rfl

/-- C3 (amended).  `find_similar_books` returns at most `k` results always;
and whenever the entire embedded candidate population fits within `k` — so
the `k`-truncating search stage returns everything — the results are exactly
the eligible candidates (post exclude-id and genre filters), each exactly
once.  (The original claim's guarantee for "fewer eligible than `k`" fails:
the filters run after the truncating search stage; see the counterexample.) -/
theorem C3_rank_count (s : List ℚ → ℚ) (docs : List Doc) (k : ℕ)
    (ex : Option ℕ) (gf : Option String) :
    (find_similar_books s docs k ex gf).length ≤ k ∧
    ((withEmbedding docs).length ≤ k →
      ((find_similar_books s docs k ex gf).map SimResult.book_id).Perm
        ((docs.filter (eligibleDoc ex gf)).map Doc.id)) := by
  constructor
  · rw [find_similar_books_eq, List.length_map]
    exact le_trans (List.length_filter_le _ _) (List.length_take_le k _)
  · intro hle
    rw [find_similar_books_eq]
    have htop : topK (docScore s) Doc.id k (withEmbedding docs)
        = sortRank (docScore s) Doc.id (withEmbedding docs) := by
      unfold topK
      exact List.take_of_length_le (by rw [sortRank_length]; exact hle)
    rw [htop, List.map_map]
    have hcomp : SimResult.book_id ∘ projectDoc s = Doc.id := rfl
    rw [hcomp]
    have hfp := (sortRank_perm (docScore s) Doc.id
      (withEmbedding docs)).filter
      fun d => (matchFilters ex gf).all fun f => f d
    refine (hfp.map Doc.id).trans ?_
    have heq : (withEmbedding docs).filter
        (fun d => (matchFilters ex gf).all fun f => f d)
          = docs.filter (eligibleDoc ex gf) := by
      unfold withEmbedding
      rw [List.filter_filter]
      apply List.filter_congr
      intro d _
      show (((matchFilters ex gf).all fun f => f d) && d.embedding.isSome)
        = eligibleDoc ex gf d
      unfold eligibleDoc
      rw [Bool.and_comm]
    rw [heq]

/-- Witness for C3 at a one-document population. -/
theorem C3_rank_count_witness :
    (withEmbedding [docC]).length ≤ 2 ∧
    (find_similar_books headScore [docC] 2 none (some "g")).length ≤ 2 ∧
    ((find_similar_books headScore [docC] 2 none
        (some "g")).map SimResult.book_id).Perm
      (([docC].filter (eligibleDoc none (some "g"))).map Doc.id) :=
  ⟨by decide,
   (C3_rank_count headScore [docC] 2 none (some "g")).1,
   (C3_rank_count headScore [docC] 2 none (some "g")).2 (by decide)⟩

/-- C3 counterexample.  With three stored candidates, a genre filter matching
only the lowest-scoring one, and `k = 2`: one candidate is eligible (fewer
than `k`), yet the call returns nothing — the search stage selects the two
ineligible top scorers and the genre `$match` then removes both. -/
theorem C3_cex_eligible_dropped :
    (([docA, docB, docC].filter (eligibleDoc none (some "g"))).length = 1)
    ∧ 1 < 2
    ∧ find_similar_books headScore [docA, docB, docC] 2 none (some "g") = [] := by
  decide

/-- C4 (confirmed).  When an exclude id is provided, no returned result ever
carries that id, for every score function, candidate population, limit, and
genre filter — even if the excluded candidate would otherwise rank first. -/
theorem C4_exclude_unconditional (s : List ℚ → ℚ) (docs : List Doc) (k : ℕ)
    (eid : ℕ) (gf : Option String) :
    (find_similar_books s docs k (some eid) gf).all
      (fun r => r.book_id != eid) = true := by
  rw [find_similar_books_eq, List.all_eq_true]
  intro r hr
  obtain ⟨d, hd, rfl⟩ := List.mem_map.mp hr
  have hall := (List.mem_filter.mp hd).2
  have hhead : ∃ rest, matchFilters (some eid) gf
      = (fun d : Doc => d.id != eid) :: rest := by
    cases gf with
    | none => exact ⟨[], rfl⟩
    | some g => exact ⟨[fun d : Doc => d.genre == some g], rfl⟩
  obtain ⟨rest, hcons⟩ := hhead
  rw [hcons, List.all_cons, Bool.and_eq_true] at hall
  exact hall.1

/-- C5 (amended).  With no exclusion and no genre filter, ranking a
partitioned candidate collection partition-by-partition with the same `k` and
query, merging the partial result lists by (score descending, id ascending),
and re-truncating to `k` yields exactly the one-call ranking of the whole
collection — for every partition into sub-collections, provided stored ids
are unique.  (With an exclude-id or genre filter the property fails, because
the code applies those filters after the `k`-truncating search stage; see the
counterexample.) -/
theorem C5_partition_merge (s : List ℚ → ℚ) (parts : List (List Doc)) (k : ℕ)
    (hids : (parts.flatten.map Doc.id).Nodup) :
    find_similar_books s parts.flatten k none none
      = mergeResults k
          ((parts.map fun p => find_similar_books s p k none none)).flatten := by
  have hembed : withEmbedding parts.flatten = (parts.map withEmbedding).flatten := by
    unfold withEmbedding
    exact List.filter_flatten _ parts
  have hrhs : (parts.map fun p => find_similar_books s p k none none)
      = parts.map fun p =>
          (topK (docScore s) Doc.id k (withEmbedding p)).map (projectDoc s) := by
    simp only [find_similar_books_no_filters]
  rw [find_similar_books_no_filters, hrhs]
  have hsplit : (parts.map fun p =>
        (topK (docScore s) Doc.id k (withEmbedding p)).map (projectDoc s))
      = (parts.map fun p => topK (docScore s) Doc.id k (withEmbedding p)).map
          (List.map (projectDoc s)) := (List.map_map _ _ _).symm
  rw [hsplit, ← List.map_flatten]
  unfold mergeResults
  rw [topK_map (docScore s) Doc.id SimResult.similarity_score
    SimResult.book_id (projectDoc s) (fun d => rfl) (fun d => rfl) k]
  congr 1
  rw [hembed]
  have hnodup : idsNodup Doc.id ([] ++ (parts.map withEmbedding).flatten) := by
    rw [List.nil_append, ← hembed]
    exact idsNodup_sublist Doc.id (List.filter_sublist parts.flatten) hids
  have hacc := topK_flatten_acc (docScore s) Doc.id k
    (parts.map withEmbedding) [] hnodup
  rw [List.nil_append, List.nil_append, List.map_map] at hacc
  exact hacc.symm

/-- Witness for C5 at a concrete two-part partition with distinct ids. -/
theorem C5_partition_merge_witness :
    ((([[docA], [docB]] : List (List Doc)).flatten.map Doc.id).Nodup) ∧
    find_similar_books headScore ([[docA], [docB]] : List (List Doc)).flatten
        1 none none
      = mergeResults 1
          ((([[docA], [docB]] : List (List Doc)).map fun p =>
            find_similar_books headScore p 1 none none)).flatten :=
  ⟨by decide, C5_partition_merge headScore [[docA], [docB]] 1 (by decide)⟩

/-- C5 counterexample.  With the genre filter of the claim's "same exclusion
and filter" clause in effect, the one-call ranking of `[docA, docB, docC]`
returns nothing, while partitioning into `[[docA, docB], [docC]]`, ranking
each part, merging, and re-truncating returns the document with id 3 — so
the partition-merge property fails for filtered rankings. -/
theorem C5_cex_filter_breaks_merge :
    find_similar_books headScore
        ([[docA, docB], [docC]] : List (List Doc)).flatten 2 none (some "g")
      = [] ∧
    (mergeResults 2
        ((([[docA, docB], [docC]] : List (List Doc)).map fun p =>
          find_similar_books headScore p 2 none (some "g"))).flatten).map
        SimResult.book_id = [3] := by
  decide

/-! ## Lemmas: update_book, validate_embedding, the search endpoint -/

theorem update_book_embedding_eq (svc : String → String → Option (List ℚ))
    (now : ℕ) (book : BookDoc) (upd : BookUpdate) :
    (update_book svc now book upd).embedding
      = if upd.title.isSome || upd.description.isSome then
          (match svc (upd.title.getD book.title)
              (upd.description.getD book.description) with
           | some e => some e
           | none => book.embedding)
        else book.embedding :=
  rfl

/-- C8 (amended).  When an update touches title or description and the
embedding provider succeeds, the saved book holds the new title, the new
description, and the freshly recomputed embedding — all applied in the same
save.  (The unconditional claim fails: the code catches a provider failure,
logs it, and still saves the new fields with the stale embedding; see the
counterexample.) -/
theorem C8_update_recomputes_embedding
    (embedSvc : String → String → Option (List ℚ)) (now : ℕ)
    (book : BookDoc) (upd : BookUpdate) (e : List ℚ)
    (hch : (upd.title.isSome || upd.description.isSome) = true)
    (hsvc : embedSvc (upd.title.getD book.title)
        (upd.description.getD book.description) = some e) :
    (update_book embedSvc now book upd).title = upd.title.getD book.title ∧
    (update_book embedSvc now book upd).description
      = upd.description.getD book.description ∧
    (update_book embedSvc now book upd).embedding = some e := by
  refine ⟨rfl, rfl, ?_⟩
  rw [update_book_embedding_eq, if_pos hch, hsvc]

/-- Witness for C8 with a succeeding embedding provider. -/
theorem C8_update_recomputes_embedding_witness :
    ((titleOnlyUpdate.title.isSome || titleOnlyUpdate.description.isSome)
      = true) ∧
    (update_book (fun _ _ => some [9]) 1 staleBook titleOnlyUpdate).embedding
      = some [9] :=
  ⟨by decide,
   (C8_update_recomputes_embedding (fun _ _ => some [9]) 1 staleBook
      titleOnlyUpdate [9] (by decide) rfl).2.2⟩

/-- C8 counterexample.  When the embedding provider raises (modelled as
`none`), the update still completes and saves: the stored book then holds the
new title together with the embedding computed from the old title — the
state the claim says can never exist. -/
theorem C8_cex_stale_embedding_saved :
    (update_book (fun _ _ => none) 1 staleBook titleOnlyUpdate).title
      = "new title" ∧
    staleBook.title = "old title" ∧
    (update_book (fun _ _ => none) 1 staleBook titleOnlyUpdate).embedding
      = staleBook.embedding := by
  decide

/-- C9 (amended).  `EmbeddingService.validate_embedding` accepts a vector
exactly when its length equals `targetDim` and every component is finite; it
rejects by returning `False` — the codebase defines no
`DimensionMismatchError` and the function raises nothing — and, being a pure
predicate, it never renormalizes or modifies the vector it inspects. -/
theorem C9_validate_embedding_spec (dim : ℕ) (emb : List NpFloat) :
    validate_embedding dim emb = true ↔
      emb.length = dim ∧ ∀ x ∈ emb, x.isFinite = true := by
  unfold validate_embedding
  split_ifs with h1 h2
  · exact iff_of_false (by simp) fun h => h1 h.1
  · exact iff_of_true rfl ⟨not_ne_iff.mp h1, List.all_eq_true.mp h2⟩
  · exact iff_of_false (by simp)
      fun h => h2 (List.all_eq_true.mpr h.2)

/-- C9 counterexample.  A one-component vector against `targetDim = 1536`
(the `settings.EMBEDDING_DIM` default) is rejected by returning `False`, and
no `DimensionMismatchError` exists among the repository's exception classes
to be raised. -/
theorem C9_cex_rejects_by_false_not_error :
    validate_embedding 1536 [NpFloat.val 1] = false ∧
    exception_class_names.contains "DimensionMismatchError" = false := by
  decide

theorem call_find_similar_by_track_id (hyp : List SimResult) :
    callSimilarityServiceMethod "find_similar_by_track_id" hyp
      = Except.error PyExc.attributeError := by
  unfold callSimilarityServiceMethod
  rw [show similarity_service_methods.contains "find_similar_by_track_id"
    = false from by decide]
  rfl

theorem call_find_similar_tracks (hyp : List SimResult) :
    callSimilarityServiceMethod "find_similar_tracks" hyp
      = Except.error PyExc.attributeError := by
  unfold callSimilarityServiceMethod
  rw [show similarity_service_methods.contains "find_similar_tracks"
    = false from by decide]
  rfl

theorem search_similar_eq (trackFound : String → Bool)
    (extOk audioOk : Bool) (hyp : List SimResult) (req : SearchRequest) :
    search_similar trackFound extOk audioOk hyp req
      = if (!pyTruthyStr req.track_id && !req.has_file) = true then
          SearchOutcome.httpError 400
        else if (pyTruthyStr req.track_id && req.has_file) = true then
          SearchOutcome.httpError 400
        else if pyTruthyStr req.track_id = true then
          match trackModeBody trackFound (req.track_id.getD "") hyp with
          | Except.ok rs => SearchOutcome.ok rs
          | Except.error PyExc.valueError => SearchOutcome.httpError 400
          | Except.error _ => SearchOutcome.httpError 500
        else
          match fileModeBody extOk audioOk hyp with
          | Except.ok rs => SearchOutcome.ok rs
          | Except.error _ => SearchOutcome.httpError 500 :=
  rfl

theorem search_similar_never_ok (trackFound : String → Bool)
    (extOk audioOk : Bool) (hyp : List SimResult) (req : SearchRequest)
    (rs : List SimResult) :
    search_similar trackFound extOk audioOk hyp req ≠ SearchOutcome.ok rs := by
  rw [search_similar_eq]
  split_ifs with h1 h2 h3
  · exact fun h => SearchOutcome.noConfusion h
  · exact fun h => SearchOutcome.noConfusion h
  · unfold trackModeBody
    split_ifs with h4
    · exact fun h => SearchOutcome.noConfusion h
    · rw [call_find_similar_by_track_id hyp]
      exact fun h => SearchOutcome.noConfusion h
  · unfold fileModeBody
    split_ifs with h4 h5
    · exact fun h => SearchOutcome.noConfusion h
    · exact fun h => SearchOutcome.noConfusion h
    · rw [call_find_similar_tracks hyp]
      exact fun h => SearchOutcome.noConfusion h

/-- C10 (confirmed).  The `POST /search/similar` handler calls
`find_similar_by_track_id` (track-id mode) or `find_similar_tracks` (file
mode) on `SimilarityService`, which defines neither; the resulting
`AttributeError` is caught by the handler's `except Exception` clause, so
every well-formed similarity search through this endpoint answers HTTP 500,
and no request through it ever receives a ranked result. -/
theorem C10_search_similar_always_500 (trackFound : String → Bool)
    (extOk audioOk : Bool) (hyp : List SimResult) (req : SearchRequest) :
    (∀ rs : List SimResult,
      search_similar trackFound extOk audioOk hyp req ≠ SearchOutcome.ok rs) ∧
    (wellFormedSearch trackFound extOk audioOk req = true →
      search_similar trackFound extOk audioOk hyp req
        = SearchOutcome.httpError 500) := by
  constructor
  · exact fun rs => search_similar_never_ok trackFound extOk audioOk hyp req rs
  · intro hwf
    rw [search_similar_eq]
    rcases req with ⟨tid, hf, lim⟩
    cases tid with
    | some t =>
      unfold wellFormedSearch at hwf
      rw [Bool.and_eq_true, Bool.and_eq_true] at hwf
      obtain ⟨⟨hne, hnf⟩, htf⟩ := hwf
      rw [Bool.not_eq_true'] at hnf
      subst hnf
      simp [pyTruthyStr, trackModeBody, htf, hne,
        call_find_similar_by_track_id]
    | none =>
      unfold wellFormedSearch at hwf
      rw [Bool.and_eq_true, Bool.and_eq_true] at hwf
      obtain ⟨⟨hhf, hext⟩, haud⟩ := hwf
      subst hhf
      simp [pyTruthyStr, fileModeBody, hext, haud, call_find_similar_tracks]

/-- Witness for C10 at a concrete well-formed track-id request. -/
theorem C10_search_similar_always_500_witness :
    wellFormedSearch (fun _ => true) true true
        { track_id := some "t1", has_file := false, limit := 10 } = true ∧
    search_similar (fun _ => true) true true []
        { track_id := some "t1", has_file := false, limit := 10 }
      = SearchOutcome.httpError 500 :=
  ⟨by decide,
   (C10_search_similar_always_500 (fun _ => true) true true []
      { track_id := some "t1", has_file := false, limit := 10 }).2 (by decide)⟩
